import Mathlib

/-!
Verification of the electricity-cut notifier's parsing core.

This file shallowly embeds the parsing core of the repository
(`pdf_parser.py` and the location filter of `main.py`) into Lean.
Python strings are modelled as `List Char`; fallible text extraction is
modelled with `Option`; the three concrete regular expressions of
`PDFCutParser` are modelled by hand-written matchers that mirror Python's
`re.search` semantics for those exact patterns (leftmost starting
position; non-greedy `(.+?)` tried shortest-first; greedy `\s+` runs,
which for these patterns are exactly the maximal whitespace runs since
every `\s+` is followed by `\d`, and whitespace and digits are disjoint).
Character classes are modelled over the alphabets actually used by the
source dialect: `\d` as the ASCII digits, `\s` and `str.strip`/`str.isspace`
as the ASCII whitespace characters, and `str.upper` over ASCII plus the
basic Cyrillic block (the alphabets appearing in the bulletins and the
configuration).
-/

set_option autoImplicit false

/-- Python whitespace test restricted to the ASCII whitespace characters
(space, tab, newline, carriage return, vertical tab, form feed). -/
def pySpace (c : Char) : Bool :=
  c = ' ' || c = '\t' || c = '\n' || c = '\r' || c = '\x0b' || c = '\x0c'

/-- Python `str.strip()`: drop whitespace from both ends. -/
def pyStrip (s : List Char) : List Char :=
  ((s.dropWhile pySpace).reverse.dropWhile pySpace).reverse

/-- Python `str.upper()` on one character, for ASCII letters and the basic
Cyrillic block (а-я U+0430..U+044F maps to А-Я U+0410..U+042F, plus ё). -/
def pyUpperChar (c : Char) : Char :=
  if 'a' ≤ c ∧ c ≤ 'z' then Char.ofNat (c.toNat - 32)
  else if 'а' ≤ c ∧ c ≤ 'я' then Char.ofNat (c.toNat - 32)
  else if c = 'ё' then 'Ё'
  else c

/-- Python `str.upper()`. -/
def pyUpper (s : List Char) : List Char := s.map pyUpperChar

/-- Python's substring test `needle in hay` (contiguous substring;
the empty needle is contained in everything). -/
def containsSub (needle : List Char) : List Char → Bool
  | [] => needle.isEmpty
  | c :: rest => needle.isPrefixOf (c :: rest) || containsSub needle rest

/-- Case-insensitive containment, modelling a `re.IGNORECASE` search for the
escaped literal `needle` inside `hay` (case folding done by upper-casing
both sides, which agrees with Python on the modelled alphabets). -/
def ciContains (needle hay : List Char) : Bool :=
  containsSub (pyUpper needle) (pyUpper hay)

/-- Python `str.split('\n')`: `""` yields `[""]`, and every newline
separates two (possibly empty) parts. -/
def splitLines : List Char → List (List Char)
  | [] => [[]]
  | c :: rest =>
    if c = '\n' then [] :: splitLines rest
    else
      match splitLines rest with
      | r :: rs => (c :: r) :: rs
      | [] => [[c]]

/-- Python `'\n'.join(texts)`. -/
def pyJoin : List (List Char) → List Char
  | [] => []
  | [t] => t
  | t :: u :: ts => t ++ '\n' :: pyJoin (u :: ts)

/-- Outcome of `page.extract_text()` for one PDF page: either the page's
text, or an exception raised by the PDF library. -/
inductive PageResult where
  | ok (text : List Char)
  | err
  deriving DecidableEq

/-- The page loop of `PDFCutParser.extract_text`: accumulate each page's
text; an exception on any page escapes the loop (handled by the caller's
`except` clause, modelled as `none`). -/
def collectPages : List PageResult → Option (List (List Char))
  | [] => some []
  | PageResult.ok t :: rest => (collectPages rest).map (fun ts => t :: ts)
  | PageResult.err :: _ => none

/-- Model of `PDFCutParser.extract_text`: join all page texts with `'\n'`; any
exception makes the whole extraction return `None`. -/
def extract_text (pages : List PageResult) : Option (List Char) :=
  (collectPages pages).map pyJoin

/-- Shape test for the regex fragment `\d{2}\.\d{2}\.\d{4}` (`\d` modelled
as ASCII digit). -/
def isDateFmt : List Char → Bool
  | [a, b, c, d, e, f, g, h, i, j] =>
    a.isDigit && b.isDigit && c == '.' && d.isDigit && e.isDigit &&
      f == '.' && g.isDigit && h.isDigit && i.isDigit && j.isDigit
  | _ => false

/-- Shape test for the regex fragment `\d{2}:\d{2}`. -/
def isTimeFmt : List Char → Bool
  | [a, b, c, d, e] => a.isDigit && b.isDigit && c == ':' && d.isDigit && e.isDigit
  | _ => false

/-- Match `\d{2}\.\d{2}\.\d{4}` at the front of `s`, returning the matched
text and the remainder. -/
def parseDate (s : List Char) : Option (List Char × List Char) :=
  if isDateFmt (s.take 10) then some (s.take 10, s.drop 10) else none

/-- Match `\d{2}:\d{2}` at the front of `s`. -/
def parseTime (s : List Char) : Option (List Char × List Char) :=
  if isTimeFmt (s.take 5) then some (s.take 5, s.drop 5) else none

/-- The four date/time capture groups of the cut-detail pattern. -/
structure CutTail where
  d1 : List Char
  t1 : List Char
  d2 : List Char
  t2 : List Char
  deriving DecidableEq

/-- Match the suffix `\s+(\d{2}\.\d{2}\.\d{4})\s+(\d{2}:\d{2})\s+`
`(\d{2}\.\d{2}\.\d{4})\s+(\d{2}:\d{2})` of the cut-detail pattern at the
front of `s`.  Each greedy `\s+` is immediately followed by `\d`, so it
can only match the full maximal whitespace run. -/
def matchTail (s : List Char) : Option CutTail :=
  if (s.takeWhile pySpace).isEmpty then none else
  match parseDate (s.dropWhile pySpace) with
  | none => none
  | some (d1, s2) =>
    if (s2.takeWhile pySpace).isEmpty then none else
    match parseTime (s2.dropWhile pySpace) with
    | none => none
    | some (t1, s3) =>
      if (s3.takeWhile pySpace).isEmpty then none else
      match parseDate (s3.dropWhile pySpace) with
      | none => none
      | some (d2, s4) =>
        if (s4.takeWhile pySpace).isEmpty then none else
        match parseTime (s4.dropWhile pySpace) with
        | none => none
        | some (t2, _) => some ⟨d1, t1, d2, t2⟩

/-- The five capture groups of the cut-detail pattern. -/
structure CutMatch where
  loc : List Char
  d1 : List Char
  t1 : List Char
  d2 : List Char
  t2 : List Char
  deriving DecidableEq

/-- The non-greedy location capture `(.+?)`: try the shortest capture
first, extending one character at a time; `.` never matches `'\n'`. -/
def tryLoc (acc : List Char) : List Char → Option CutMatch
  | [] => none
  | c :: rest =>
    if c = '\n' then none
    else
      match matchTail rest with
      | some t => some ⟨(c :: acc).reverse, t.d1, t.t1, t.d2, t.t2⟩
      | none => tryLoc (c :: acc) rest

/-- Model of `re.search` for `cut_pattern = 'Част от (.+?)\s+(\d{2}\.\d{2}\.\d{4})`
`\s+(\d{2}:\d{2})\s+(\d{2}\.\d{2}\.\d{4})\s+(\d{2}:\d{2})'`: starting
positions are tried left to right; at each, the literal must match and the
shortest viable location capture wins. -/
def cutSearch : List Char → Option CutMatch
  | [] => none
  | c :: rest =>
    if ("Част от ").data.isPrefixOf (c :: rest) then
      match tryLoc [] ((c :: rest).drop ("Част от ").data.length) with
      | some m => some m
      | none => cutSearch rest
    else cutSearch rest

/-- Non-greedy capture for `lit(.+?)after`: shortest capture such that the
trailing literal follows immediately; `.` never matches `'\n'`. -/
def tryCapture (after : List Char) (acc : List Char) : List Char → Option (List Char)
  | [] => none
  | c :: rest =>
    if c = '\n' then none
    else if after.isPrefixOf rest then some (c :: acc).reverse
    else tryCapture after (c :: acc) rest

/-- Model of `re.search` for a pattern of shape `lit(.+?)after` (the region and
municipality header patterns). -/
def searchPat (lit after : List Char) : List Char → Option (List Char)
  | [] => none
  | c :: rest =>
    if lit.isPrefixOf (c :: rest) then
      match tryCapture after [] ((c :: rest).drop lit.length) with
      | some cap => some cap
      | none => searchPat lit after rest
    else searchPat lit after rest

/-- Model of `region_pattern = re.compile('област (.+?) Част от')`, searched in a line. -/
def regionSearch (line : List Char) : Option (List Char) :=
  searchPat ("област ").data (" Част от").data line

/-- Model of `municipality_pattern = re.compile('община (.+?) За индивидуална')`. -/
def muniSearch (line : List Char) : Option (List Char) :=
  searchPat ("община ").data (" За индивидуална").data line

/-- One entry of the list built by `PDFCutParser.extract_cut_details`. -/
structure CutRecord where
  location : List Char
  date_start : List Char
  time_start : List Char
  date_end : List Char
  time_end : List Char
  region : Option (List Char)
  municipality : Option (List Char)
  full_line : List Char
  deriving DecidableEq

/-- Update of `current_region`: a region-header match replaces the running
value with the captured name, trimmed; otherwise the value persists. -/
def updReg (reg : Option (List Char)) (line : List Char) : Option (List Char) :=
  match regionSearch line with
  | some r => some (pyStrip r)
  | none => reg

/-- Update of `current_municipality`, analogous to `updReg`. -/
def updMuni (muni : Option (List Char)) (line : List Char) : Option (List Char) :=
  match muniSearch line with
  | some m => some (pyStrip m)
  | none => muni

/-- The cut emission for one line: one record when the cut-detail pattern
matches, none otherwise. -/
def emitLine (reg muni : Option (List Char)) (line : List Char) : List CutRecord :=
  match cutSearch line with
  | some m =>
    [{ location := pyStrip m.loc, date_start := m.d1, time_start := m.t1,
       date_end := m.d2, time_end := m.t2, region := reg,
       municipality := muni, full_line := pyStrip line }]
  | none => []

/-- The line loop of `extract_cut_details`: region and municipality updates
happen before the cut check on the same line. -/
def extractGo (reg muni : Option (List Char)) : List (List Char) → List CutRecord
  | [] => []
  | line :: rest =>
    emitLine (updReg reg line) (updMuni muni line) line ++
      extractGo (updReg reg line) (updMuni muni line) rest

/-- The extraction pass over a line stream, starting with no region and no
municipality context. -/
def extractFromLines (lines : List (List Char)) : List CutRecord :=
  extractGo none none lines

/-- Model of `PDFCutParser.extract_cut_details`: `None` or empty text short-circuits
to the empty list; otherwise split into lines and run the pass. -/
def extract_cut_details (text : Option (List Char)) : List CutRecord :=
  match text with
  | none => []
  | some t => if t.isEmpty then [] else extractFromLines (splitLines t)

/-- Number of lines of a stream matched by the cut-detail pattern. -/
def numCuts (lines : List (List Char)) : Nat :=
  lines.countP (fun l => (cutSearch l).isSome)

/-- Fold of the region updates over a list of lines. -/
def updRegs (reg : Option (List Char)) (lines : List (List Char)) : Option (List Char) :=
  lines.foldl updReg reg

/-- Fold of the municipality updates over a list of lines. -/
def updMunis (muni : Option (List Char)) (lines : List (List Char)) : Option (List Char) :=
  lines.foldl updMuni muni

/-- One entry of the list built by `PDFCutParser.search_city`. -/
structure SearchMatch where
  line_number : Nat
  text : List Char
  deriving DecidableEq

/-- The line loop of `search_city`: `enumerate(lines, 1)` with a
case-insensitive literal search per line, storing the stripped line. -/
def searchGo (city : List Char) (i : Nat) : List (List Char) → List SearchMatch
  | [] => []
  | l :: rest =>
    (if ciContains city l then [⟨i, pyStrip l⟩] else []) ++ searchGo city (i + 1) rest

/-- Model of `PDFCutParser.search_city`: falsy text short-circuits to the empty
list; otherwise split into lines and scan. -/
def search_city (text : Option (List Char)) (city_name : List Char) : List SearchMatch :=
  match text with
  | none => []
  | some t => if t.isEmpty then [] else searchGo city_name 1 (splitLines t)

/-- Model of `CutNotifier.filter_cuts_by_city`: an empty city list passes the input
through; otherwise keep the cuts whose upper-cased location contains some
upper-cased city (the inner loop with `break` keeps each cut at most once). -/
def filter_cuts_by_city (cuts : List CutRecord) (cities : List (List Char)) : List CutRecord :=
  if cities.isEmpty then cuts
  else
    cuts.filter (fun cut =>
      (cities.map pyUpper).any (fun city => containsSub city (pyUpper cut.location)))

theorem isDateFmt_ne_nil {d : List Char} (h : isDateFmt d = true) : d ≠ [] := by
  intro hnil
  subst hnil
  exact absurd h (by decide)

theorem isTimeFmt_ne_nil {d : List Char} (h : isTimeFmt d = true) : d ≠ [] := by
  intro hnil
  subst hnil
  exact absurd h (by decide)

theorem parseDate_ne_nil {s d r : List Char} (h : parseDate s = some (d, r)) : d ≠ [] := by
  unfold parseDate at h
  split at h
  · rename_i hfmt
    simp only [Option.some.injEq, Prod.mk.injEq] at h
    obtain ⟨h1, _⟩ := h
    subst h1
    exact isDateFmt_ne_nil hfmt
  · exact absurd h (by simp)

theorem parseTime_ne_nil {s d r : List Char} (h : parseTime s = some (d, r)) : d ≠ [] := by
  unfold parseTime at h
  split at h
  · rename_i hfmt
    simp only [Option.some.injEq, Prod.mk.injEq] at h
    obtain ⟨h1, _⟩ := h
    subst h1
    exact isTimeFmt_ne_nil hfmt
  · exact absurd h (by simp)

theorem matchTail_fields {s : List Char} {t : CutTail} (h : matchTail s = some t) :
    t.d1 ≠ [] ∧ t.t1 ≠ [] ∧ t.d2 ≠ [] ∧ t.t2 ≠ [] := by
  unfold matchTail at h
  split at h
  · exact absurd h (by simp)
  · split at h
    · exact absurd h (by simp)
    · rename_i d1 s2 hd1
      split at h
      · exact absurd h (by simp)
      · split at h
        · exact absurd h (by simp)
        · rename_i t1 s3 ht1
          split at h
          · exact absurd h (by simp)
          · split at h
            · exact absurd h (by simp)
            · rename_i d2 s4 hd2
              split at h
              · exact absurd h (by simp)
              · split at h
                · exact absurd h (by simp)
                · rename_i t2 s5 ht2
                  injection h with h
                  subst h
                  exact ⟨parseDate_ne_nil hd1, parseTime_ne_nil ht1,
                         parseDate_ne_nil hd2, parseTime_ne_nil ht2⟩

theorem tryLoc_fields {m : CutMatch} :
    ∀ (s acc : List Char), tryLoc acc s = some m →
      m.loc ≠ [] ∧ m.d1 ≠ [] ∧ m.t1 ≠ [] ∧ m.d2 ≠ [] ∧ m.t2 ≠ [] := by
  intro s
  induction s with
  | nil => intro acc h; exact absurd h (by simp [tryLoc])
  | cons c rest ih =>
    intro acc h
    unfold tryLoc at h
    split at h
    · exact absurd h (by simp)
    · split at h
      · rename_i t ht
        injection h with h
        subst h
        exact ⟨by simp, (matchTail_fields ht).1, (matchTail_fields ht).2.1,
               (matchTail_fields ht).2.2.1, (matchTail_fields ht).2.2.2⟩
      · exact ih _ h

theorem cutSearch_fields {m : CutMatch} :
    ∀ s : List Char, cutSearch s = some m →
      m.loc ≠ [] ∧ m.d1 ≠ [] ∧ m.t1 ≠ [] ∧ m.d2 ≠ [] ∧ m.t2 ≠ [] := by
  intro s
  induction s with
  | nil => intro h; exact absurd h (by simp [cutSearch])
  | cons c rest ih =>
    intro h
    unfold cutSearch at h
    split at h
    · split at h
      · rename_i m' hm
        injection h with h
        subst h
        exact tryLoc_fields _ _ hm
      · exact ih h
    · exact ih h

theorem extractGo_fields {r : CutRecord} :
    ∀ (lines : List (List Char)) (reg muni : Option (List Char)),
      r ∈ extractGo reg muni lines →
      r.date_start ≠ [] ∧ r.time_start ≠ [] ∧ r.date_end ≠ [] ∧ r.time_end ≠ [] := by
  intro lines
  induction lines with
  | nil => intro reg muni h; exact absurd h (by simp [extractGo])
  | cons line rest ih =>
    intro reg muni h
    unfold extractGo at h
    rcases List.mem_append.1 h with h1 | h2
    · unfold emitLine at h1
      split at h1
      · rename_i m hm
        rcases List.mem_singleton.1 h1 with rfl
        obtain ⟨_, h1, h2, h3, h4⟩ := cutSearch_fields _ hm
        exact ⟨h1, h2, h3, h4⟩
      · exact absurd h1 (by simp)
    · exact ih _ _ h2

/-- C1 (amended): every record emitted by `extract_cut_details` has
non-empty `date_start`, `time_start`, `date_end` and `time_end`; the
stored `location`, however, is the trimmed capture and can be empty when
the non-greedy capture is all whitespace (see `C1_counterexample`). -/
theorem C1_amended (text : Option (List Char)) (r : CutRecord)
    (h : r ∈ extract_cut_details text) :
    r.date_start ≠ [] ∧ r.time_start ≠ [] ∧ r.date_end ≠ [] ∧ r.time_end ≠ [] := by
  unfold extract_cut_details at h
  split at h
  · exact absurd h (by simp)
  · split at h
    · exact absurd h (by simp)
    · exact extractGo_fields _ _ _ h

/-- C1 is false as stated: on the line `"Част от   18.11.2025 08:30`
`18.11.2025 16:30"` (three spaces after `от`) the non-greedy location
capture is a single space, which trims to the empty string, and the record
is emitted anyway — its `location` is empty after trimming. -/
theorem C1_counterexample :
    (extract_cut_details
        (some ("Част от   18.11.2025 08:30 18.11.2025 16:30").data)).map
      (fun r => r.location) = [[]] := by decide

/-- Witness: a well-formed cut line yields a record on which the amended
C1 invariant evaluates as stated. -/
theorem C1_amended_witness :
    ({ location := ("ГР.СОФИЯ").data, date_start := ("01.02.2025").data,
       time_start := ("08:00").data, date_end := ("01.02.2025").data,
       time_end := ("10:00").data, region := none, municipality := none,
       full_line := ("Част от ГР.СОФИЯ 01.02.2025 08:00 01.02.2025 10:00").data } : CutRecord) ∈
        extract_cut_details
          (some ("Част от ГР.СОФИЯ 01.02.2025 08:00 01.02.2025 10:00").data) ∧
      (("01.02.2025").data ≠ [] ∧ ("08:00").data ≠ [] ∧
        ("01.02.2025").data ≠ [] ∧ ("10:00").data ≠ []) :=
  ⟨by decide,
    C1_amended (some ("Част от ГР.СОФИЯ 01.02.2025 08:00 01.02.2025 10:00").data)
      { location := ("ГР.СОФИЯ").data, date_start := ("01.02.2025").data,
        time_start := ("08:00").data, date_end := ("01.02.2025").data,
        time_end := ("10:00").data, region := none, municipality := none,
        full_line := ("Част от ГР.СОФИЯ 01.02.2025 08:00 01.02.2025 10:00").data }
      (by decide)⟩

/-- C2: the literal three-line example of the specification yields exactly
one record with the stated fields. -/
theorem C2_example :
    extract_cut_details
        (some ("Пазарджик област ПЕРНИК Част от общината\nобщина ПЕРНИК За индивидуална\nЧаст от ГР.ПЕРНИК 18.11.2025 08:30 18.11.2025 16:30").data) =
      [{ location := ("ГР.ПЕРНИК").data, date_start := ("18.11.2025").data,
         time_start := ("08:30").data, date_end := ("18.11.2025").data,
         time_end := ("16:30").data, region := some ("ПЕРНИК").data,
         municipality := some ("ПЕРНИК").data,
         full_line := ("Част от ГР.ПЕРНИК 18.11.2025 08:30 18.11.2025 16:30").data }] := by
  decide

theorem splitLines_ne_nil : ∀ s : List Char, splitLines s ≠ []
  | [] => by simp [splitLines]
  | c :: rest => by
    unfold splitLines
    split
    · simp
    · split <;> simp

theorem splitLines_append_newline : ∀ (a b : List Char),
    splitLines (a ++ '\n' :: b) = splitLines a ++ splitLines b := by
  intro a b
  induction a with
  | nil => simp [splitLines]
  | cons c a ih =>
    by_cases hc : c = '\n'
    · subst hc
      show splitLines ('\n' :: (a ++ '\n' :: b)) = splitLines ('\n' :: a) ++ splitLines b
      rw [splitLines, splitLines, if_pos rfl, if_pos rfl, ih]
      rfl
    · show splitLines (c :: (a ++ '\n' :: b)) = splitLines (c :: a) ++ splitLines b
      rw [splitLines, splitLines, if_neg hc, if_neg hc, ih]
      rcases hsa : splitLines a with _ | ⟨r, rs⟩
      · exact absurd hsa (splitLines_ne_nil a)
      · simp

theorem splitLines_pyJoin : ∀ ts : List (List Char), ts ≠ [] →
    splitLines (pyJoin ts) = (ts.map splitLines).flatten
  | [], h => absurd rfl h
  | [t], _ => by simp [pyJoin]
  | t :: u :: ts, _ => by
    rw [show pyJoin (t :: u :: ts) = t ++ '\n' :: pyJoin (u :: ts) from rfl]
    rw [splitLines_append_newline]
    rw [splitLines_pyJoin (u :: ts) (by simp)]
    simp

theorem collectPages_map_ok : ∀ ts : List (List Char),
    collectPages (ts.map PageResult.ok) = some ts := by
  intro ts
  induction ts with
  | nil => rfl
  | cons t ts ih => simp [collectPages, ih]

theorem collectPages_err : ∀ pages : List PageResult,
    PageResult.err ∈ pages → collectPages pages = none := by
  intro pages
  induction pages with
  | nil => intro h; exact absurd h (by simp)
  | cons p rest ih =>
    intro h
    cases p with
    | err => rfl
    | ok t =>
      have hmem : PageResult.err ∈ rest := by
        rcases List.mem_cons.1 h with h1 | h2
        · exact absurd h1 (by simp)
        · exact h2
      simp [collectPages, ih hmem]

/-- C3 is false as stated: a page with empty text contributes one empty
line (the joining newline produces it), not zero lines; and a page whose
extraction raises aborts the whole document rather than being skipped. -/
theorem C3_counterexample :
    extract_text [PageResult.ok ("x").data, PageResult.ok [], PageResult.ok ("y").data]
        = some ("x\n\ny").data ∧
      splitLines ("x\n\ny").data = [("x").data, [], ("y").data] ∧
      extract_text [PageResult.ok ("x").data, PageResult.err, PageResult.ok ("y").data]
        = none := by decide

/-- C3 (amended): when every page decodes, the linearized stream is the
concatenation of each page's lines in original order (a text-less page
contributing its single empty line); when any page raises, the whole
document's extraction returns `None` instead of continuing with the
remaining pages. -/
theorem C3_amended (pages : List PageResult) (texts : List (List Char)) :
    (pages = texts.map PageResult.ok → texts ≠ [] →
        extract_text pages = some (pyJoin texts) ∧
          splitLines (pyJoin texts) = (texts.map splitLines).flatten) ∧
      (PageResult.err ∈ pages → extract_text pages = none) := by
  constructor
  · intro hok hne
    subst hok
    refine ⟨?_, splitLines_pyJoin texts hne⟩
    unfold extract_text
    rw [collectPages_map_ok]
    rfl
  · intro herr
    unfold extract_text
    rw [collectPages_err pages herr]
    rfl

/-- Witness for the amended C3 on a three-page document with an empty
middle page, and on a document with a raising page. -/
theorem C3_amended_witness :
    (extract_text [PageResult.ok ("a\nb").data, PageResult.ok [], PageResult.ok ("c").data]
        = some (pyJoin [("a\nb").data, [], ("c").data]) ∧
      splitLines (pyJoin [("a\nb").data, [], ("c").data])
        = ([("a\nb").data, [], ("c").data].map splitLines).flatten) ∧
    extract_text [PageResult.ok ("x").data, PageResult.err] = none :=
  ⟨(C3_amended [PageResult.ok ("a\nb").data, PageResult.ok [], PageResult.ok ("c").data]
      [("a\nb").data, [], ("c").data]).1 (by decide) (by decide),
   (C3_amended [PageResult.ok ("x").data, PageResult.err] []).2 (by decide)⟩

/-- C4: a document whose text cannot be extracted at all yields the empty
record list, and a page-level failure (which makes `extract_text` return
`None`) degrades to the empty record list as well; the embedded extraction
functions are total, so no exception can escape. -/
theorem C4_degrades (pages : List PageResult) :
    extract_cut_details none = [] ∧
      (PageResult.err ∈ pages → extract_cut_details (extract_text pages) = []) := by
  refine ⟨rfl, fun h => ?_⟩
  unfold extract_text
  rw [collectPages_err pages h]
  rfl

/-- Witness for C4 on a one-page document whose page raises. -/
theorem C4_degrades_witness :
    extract_cut_details none = [] ∧
      extract_cut_details (extract_text [PageResult.err]) = [] :=
  ⟨(C4_degrades []).1, (C4_degrades [PageResult.err]).2 (by decide)⟩

theorem emitLine_length (reg muni : Option (List Char)) (line : List Char) :
    (emitLine reg muni line).length = if (cutSearch line).isSome then 1 else 0 := by
  unfold emitLine
  cases h : cutSearch line <;> simp

theorem extractGo_append : ∀ (xs ys : List (List Char)) (reg muni : Option (List Char)),
    extractGo reg muni (xs ++ ys) =
      extractGo reg muni xs ++ extractGo (updRegs reg xs) (updMunis muni xs) ys := by
  intro xs
  induction xs with
  | nil => intro ys reg muni; rfl
  | cons x xs ih =>
    intro ys reg muni
    simp only [List.cons_append, extractGo, List.append_eq, ih, List.append_assoc,
      updRegs, updMunis, List.foldl_cons]

theorem extractGo_length : ∀ (lines : List (List Char)) (reg muni : Option (List Char)),
    (extractGo reg muni lines).length = numCuts lines := by
  intro lines
  induction lines with
  | nil => intro reg muni; rfl
  | cons l rest ih =>
    intro reg muni
    rw [extractGo, List.length_append, emitLine_length, ih]
    cases hb : (cutSearch l).isSome <;>
      (simp [numCuts, List.countP_cons, hb]; try omega)

theorem updRegs_of_none : ∀ (mid : List (List Char)) (reg : Option (List Char)),
    (∀ l ∈ mid, regionSearch l = none) → updRegs reg mid = reg := by
  intro mid
  induction mid with
  | nil => intro reg _; rfl
  | cons l rest ih =>
    intro reg h
    have h1 : regionSearch l = none := h l (by simp)
    have h2 : updReg reg l = reg := by unfold updReg; rw [h1]
    show updRegs (updReg reg l) rest = reg
    rw [h2]
    exact ih reg (fun x hx => h x (by simp [hx]))

theorem getElem?_append_cons {α : Type} (xs ys : List α) (x : α) :
    (xs ++ x :: ys)[xs.length]? = some x := by
  induction xs with
  | nil => simp
  | cons a xs ih => simpa using ih

/-- C5 is false as stated: when the detail line itself also matches the
region-header pattern, the same-line region update fires before the record
is emitted, so the record carries the detail line's own header name, not
the one from position i — even though no region header lies strictly
between i and j. -/
theorem C5_counterexample :
    regionSearch ("област ПЛОВДИВ Част от общината").data = some ("ПЛОВДИВ").data ∧
      (cutSearch ("област ПЛОВДИВ Част от общината").data).isSome = false ∧
      (cutSearch ("област ВАРНА Част от ГР.ВАРНА 18.11.2025 08:30 18.11.2025 16:30").data).isSome = true ∧
      (extractFromLines
          [("област ПЛОВДИВ Част от общината").data,
           ("област ВАРНА Част от ГР.ВАРНА 18.11.2025 08:30 18.11.2025 16:30").data]).map
        (fun rec => rec.region) = [some ("ВАРНА").data] := by decide

/-- C5 (amended): if a region header at position i captures `r` and no
line after it up to AND INCLUDING the detail line matches the region
pattern, the record emitted for the detail line has region `strip r`;
the context persists across the non-header lines in between. -/
theorem C5_amended (pre mid post : List (List Char)) (lr lc : List Char)
    (r : List Char) (g : CutMatch)
    (h1 : regionSearch lr = some r)
    (h2 : ∀ l ∈ mid, regionSearch l = none)
    (h3 : regionSearch lc = none)
    (h4 : cutSearch lc = some g) :
    ((extractFromLines (pre ++ lr :: (mid ++ lc :: post)))[numCuts (pre ++ lr :: mid)]?).map
        (fun rec => rec.region) = some (some (pyStrip r)) := by
  unfold extractFromLines
  rw [extractGo_append, extractGo, extractGo_append, extractGo]
  rw [updRegs_of_none mid _ h2]
  have hlr : updReg (updRegs none pre) lr = some (pyStrip r) := by unfold updReg; rw [h1]
  rw [hlr]
  have hlc : updReg (some (pyStrip r)) lc = some (pyStrip r) := by unfold updReg; rw [h3]
  rw [hlc]
  generalize updMuni (updMunis (updMuni (updMunis none pre) lr) mid) lc = M2
  have hemit : emitLine (some (pyStrip r)) M2 lc
      = [{ location := pyStrip g.loc, date_start := g.d1, time_start := g.t1,
           date_end := g.d2, time_end := g.t2, region := some (pyStrip r),
           municipality := M2, full_line := pyStrip lc }] := by
    unfold emitLine; rw [h4]
  rw [hemit]
  rw [show extractGo none none pre ++
        (emitLine (some (pyStrip r)) (updMuni (updMunis none pre) lr) lr ++
          (extractGo (some (pyStrip r)) (updMuni (updMunis none pre) lr) mid ++
            ([{ location := pyStrip g.loc, date_start := g.d1, time_start := g.t1,
                date_end := g.d2, time_end := g.t2, region := some (pyStrip r),
                municipality := M2, full_line := pyStrip lc }] ++
              extractGo (some (pyStrip r)) M2 post)))
      = (extractGo none none pre ++
          emitLine (some (pyStrip r)) (updMuni (updMunis none pre) lr) lr ++
          extractGo (some (pyStrip r)) (updMuni (updMunis none pre) lr) mid) ++
          ({ location := pyStrip g.loc, date_start := g.d1, time_start := g.t1,
             date_end := g.d2, time_end := g.t2, region := some (pyStrip r),
             municipality := M2, full_line := pyStrip lc } ::
            extractGo (some (pyStrip r)) M2 post) from by simp]
  rw [show numCuts (pre ++ lr :: mid)
      = (extractGo none none pre ++
          emitLine (some (pyStrip r)) (updMuni (updMunis none pre) lr) lr ++
          extractGo (some (pyStrip r)) (updMuni (updMunis none pre) lr) mid).length from by
    rw [List.length_append, List.length_append, extractGo_length, extractGo_length,
      emitLine_length]
    cases hb : (cutSearch lr).isSome <;>
      (simp [numCuts, List.countP_append, List.countP_cons, hb]; try omega)]
  rw [getElem?_append_cons]
  rfl

/-- Witness for the amended C5: header, unrelated line, detail line. -/
theorem C5_amended_witness :
    ((extractFromLines
        [("Пазарджик област ПЕРНИК Част от общината").data,
         ("община ПЕРНИК За индивидуална").data,
         ("Част от ГР.ПЕРНИК 18.11.2025 08:30 18.11.2025 16:30").data])[numCuts
          [("Пазарджик област ПЕРНИК Част от общината").data,
           ("община ПЕРНИК За индивидуална").data]]?).map (fun rec => rec.region)
      = some (some (pyStrip ("ПЕРНИК").data)) :=
  C5_amended [] [("община ПЕРНИК За индивидуална").data] []
    ("Пазарджик област ПЕРНИК Част от общината").data
    ("Част от ГР.ПЕРНИК 18.11.2025 08:30 18.11.2025 16:30").data
    ("ПЕРНИК").data
    { loc := ("ГР.ПЕРНИК").data, d1 := ("18.11.2025").data, t1 := ("08:30").data,
      d2 := ("18.11.2025").data, t2 := ("16:30").data }
    (by decide) (by decide) (by decide) (by decide)

theorem extractGo_map_full : ∀ (lines : List (List Char)) (reg muni : Option (List Char)),
    (extractGo reg muni lines).map (fun rec => rec.full_line)
      = (lines.filter (fun l => (cutSearch l).isSome)).map pyStrip := by
  intro lines
  induction lines with
  | nil => intro reg muni; rfl
  | cons l rest ih =>
    intro reg muni
    rw [extractGo, List.map_append, ih]
    cases h : cutSearch l with
    | none =>
      have he : emitLine (updReg reg l) (updMuni muni l) l = [] := by
        unfold emitLine; rw [h]
      rw [he]
      simp [List.filter_cons, h]
    | some m =>
      have he : emitLine (updReg reg l) (updMuni muni l) l
          = [{ location := pyStrip m.loc, date_start := m.d1, time_start := m.t1,
               date_end := m.d2, time_end := m.t2, region := updReg reg l,
               municipality := updMuni muni l, full_line := pyStrip l }] := by
        unfold emitLine; rw [h]
      rw [he]
      simp [List.filter_cons, h]

/-- C6: the emitted records are, in order, exactly one per cut-matching
line of the stream: mapping each record to its stored source line yields
the subsequence of matching lines in stream order, so two matching lines
at positions i < j produce records in that same relative order and the
result is never reordered. -/
theorem C6_order (t : List Char) :
    (extract_cut_details (some t)).map (fun rec => rec.full_line)
      = ((splitLines t).filter (fun l => (cutSearch l).isSome)).map pyStrip := by
  by_cases ht : t.isEmpty
  · have hnil : t = [] := by
      cases t with
      | nil => rfl
      | cons a b => simp at ht
    subst hnil
    rfl
  · have hd : extract_cut_details (some t) = extractFromLines (splitLines t) := by
      show (if t.isEmpty = true then [] else extractFromLines (splitLines t)) = _
      rw [if_neg ht]
    rw [hd]
    exact extractGo_map_full _ _ _

/-- C7: with a non-empty monitored list, `filter_cuts_by_city` returns
exactly the input records whose upper-cased location contains at least one
upper-cased monitored name (the code's case-insensitive substring test),
and the result is a subsequence of the input — original order, each
record kept at most once however many names it matches. -/
theorem C7_filter (cuts : List CutRecord) (cities : List (List Char)) (h : cities ≠ []) :
    filter_cuts_by_city cuts cities
        = cuts.filter (fun cut =>
            cities.any (fun city => containsSub (pyUpper city) (pyUpper cut.location)))
      ∧ (filter_cuts_by_city cuts cities).Sublist cuts := by
  have hne : cities.isEmpty = false := by
    cases cities with
    | nil => exact absurd rfl h
    | cons a b => rfl
  constructor
  · unfold filter_cuts_by_city
    rw [if_neg (by simp [hne])]
    congr 1
    funext cut
    rw [List.any_map]
    rfl
  · unfold filter_cuts_by_city
    rw [if_neg (by simp [hne])]
    exact List.filter_sublist _

/-- Witness for C7: the monitored name `"софия"` admits the location
`"СОФИЯ-ЦЕНТЪР"` by case-insensitive substring match. -/
theorem C7_filter_witness :
    filter_cuts_by_city
        [{ location := ("СОФИЯ-ЦЕНТЪР").data, date_start := [], time_start := [],
           date_end := [], time_end := [], region := none, municipality := none,
           full_line := [] }] [("софия").data]
      = [{ location := ("СОФИЯ-ЦЕНТЪР").data, date_start := [], time_start := [],
           date_end := [], time_end := [], region := none, municipality := none,
           full_line := [] }] ∧
    (filter_cuts_by_city
        [{ location := ("СОФИЯ-ЦЕНТЪР").data, date_start := [], time_start := [],
           date_end := [], time_end := [], region := none, municipality := none,
           full_line := [] }] [("софия").data]
      = [{ location := ("СОФИЯ-ЦЕНТЪР").data, date_start := [], time_start := [],
           date_end := [], time_end := [], region := none, municipality := none,
           full_line := [] }].filter (fun cut =>
            [("софия").data].any (fun city => containsSub (pyUpper city) (pyUpper cut.location)))
      ∧ (filter_cuts_by_city
          [{ location := ("СОФИЯ-ЦЕНТЪР").data, date_start := [], time_start := [],
             date_end := [], time_end := [], region := none, municipality := none,
             full_line := [] }] [("софия").data]).Sublist
          [{ location := ("СОФИЯ-ЦЕНТЪР").data, date_start := [], time_start := [],
             date_end := [], time_end := [], region := none, municipality := none,
             full_line := [] }]) :=
  ⟨by decide,
   C7_filter
     [{ location := ("СОФИЯ-ЦЕНТЪР").data, date_start := [], time_start := [],
        date_end := [], time_end := [], region := none, municipality := none,
        full_line := [] }] [("софия").data] (by decide)⟩

/-- C8: filtering with an empty monitored list returns the input list
unchanged — same records, same order, same length. -/
theorem C8_pass_through (cuts : List CutRecord) :
    filter_cuts_by_city cuts [] = cuts := rfl

theorem searchGo_mem (city : List Char) :
    ∀ (ls : List (List Char)) (i : Nat) (m : SearchMatch),
      m ∈ searchGo city i ls ↔
        ∃ k, ∃ hk : k < ls.length,
          ciContains city ls[k] = true ∧ m = ⟨i + k, pyStrip ls[k]⟩ := by
  intro ls
  induction ls with
  | nil => intro i m; simp [searchGo]
  | cons l rest ih =>
    intro i m
    rw [searchGo, List.mem_append]
    constructor
    · rintro (h1 | h2)
      · by_cases hc : ciContains city l = true
        · rw [if_pos hc] at h1
          rcases List.mem_singleton.1 h1 with rfl
          exact ⟨0, by simp, by simpa using hc, by simp⟩
        · rw [if_neg hc] at h1
          exact absurd h1 (by simp)
      · rcases (ih (i + 1) m).1 h2 with ⟨k, hk, hck, hm⟩
        refine ⟨k + 1, by simpa using hk, by simpa using hck, ?_⟩
        rw [hm]
        have harith : i + 1 + k = i + (k + 1) := by omega
        simp [harith]
    · rintro ⟨k, hk, hck, hm⟩
      cases k with
      | zero =>
        left
        rw [if_pos (by simpa using hck)]
        simp [hm]
      | succ k =>
        right
        refine (ih (i + 1) m).2 ⟨k, by simpa using hk, by simpa using hck, ?_⟩
        rw [hm]
        have harith : i + (k + 1) = i + 1 + k := by omega
        simp [harith]

theorem searchGo_ge (city : List Char) :
    ∀ (ls : List (List Char)) (i : Nat) (m : SearchMatch),
      m ∈ searchGo city i ls → i ≤ m.line_number := by
  intro ls
  induction ls with
  | nil => intro i m h; exact absurd h (by simp [searchGo])
  | cons l rest ih =>
    intro i m h
    rw [searchGo, List.mem_append] at h
    rcases h with h1 | h2
    · by_cases hc : ciContains city l = true
      · rw [if_pos hc] at h1
        rcases List.mem_singleton.1 h1 with rfl
        exact Nat.le_refl i
      · rw [if_neg hc] at h1
        exact absurd h1 (by simp)
    · exact Nat.le_trans (by omega) (ih (i + 1) m h2)

theorem searchGo_pairwise (city : List Char) :
    ∀ (ls : List (List Char)) (i : Nat),
      ((searchGo city i ls).map (fun m => m.line_number)).Pairwise (· < ·) := by
  intro ls
  induction ls with
  | nil => intro i; simp [searchGo]
  | cons l rest ih =>
    intro i
    rw [searchGo]
    by_cases hc : ciContains city l = true
    · rw [if_pos hc, List.singleton_append, List.map_cons]
      refine List.pairwise_cons.2 ⟨?_, ih (i + 1)⟩
      intro x hx
      rcases List.mem_map.1 hx with ⟨m, hm, rfl⟩
      have hge := searchGo_ge city rest (i + 1) m hm
      show i < m.line_number
      omega
    · rw [if_neg hc, List.nil_append]
      exact ih (i + 1)

/-- C9: `search_city` returns, in stream order with strictly increasing
1-based positions, exactly the lines whose raw text contains the search
string as a case-insensitive substring; absent or empty text is the empty
line stream and yields no matches; and the function neither reads nor
writes any region/municipality context (its embedding takes none). -/
theorem C9_search :
    (∀ city : List Char, search_city none city = []) ∧
      (∀ city : List Char, search_city (some []) city = []) ∧
      ∀ (t city : List Char), t ≠ [] →
        (∀ (k : Nat) (hk : k < (splitLines t).length),
            ciContains city (splitLines t)[k] = true →
              (⟨k + 1, pyStrip (splitLines t)[k]⟩ : SearchMatch) ∈ search_city (some t) city) ∧
          (∀ m ∈ search_city (some t) city,
              ∃ k, ∃ hk : k < (splitLines t).length,
                ciContains city (splitLines t)[k] = true ∧
                  m = ⟨k + 1, pyStrip (splitLines t)[k]⟩) ∧
          ((search_city (some t) city).map (fun m => m.line_number)).Pairwise (· < ·) := by
  refine ⟨fun city => rfl, fun city => rfl, fun t city ht => ?_⟩
  have hs : search_city (some t) city = searchGo city 1 (splitLines t) := by
    show (if t.isEmpty = true then [] else searchGo city 1 (splitLines t)) = _
    rw [if_neg (by cases t with | nil => exact absurd rfl ht | cons a b => simp)]
  rw [hs]
  refine ⟨?_, ?_, searchGo_pairwise city _ 1⟩
  · intro k hk hck
    refine (searchGo_mem city (splitLines t) 1 _).2 ⟨k, hk, hck, ?_⟩
    have harith : k + 1 = 1 + k := by omega
    simp [harith]
  · intro m hm
    rcases (searchGo_mem city (splitLines t) 1 m).1 hm with ⟨k, hk, hck, hm2⟩
    refine ⟨k, hk, hck, ?_⟩
    rw [hm2]
    have harith : 1 + k = k + 1 := by omega
    simp [harith]

/-- Witness for C9: the search string `"софия"` finds line 1 of a
two-line stream. -/
theorem C9_search_witness :
    (⟨1, ("ГР.СОФИЯ").data⟩ : SearchMatch) ∈
      search_city (some ("ГР.СОФИЯ\nдруг ред").data) ("софия").data := by
  have h := (C9_search.2.2 ("ГР.СОФИЯ\nдруг ред").data ("софия").data (by decide)).1
    0 (by decide) (by decide)
  exact h

/-- C10: every match returned by `search_city` stores in `text` the
whitespace-trimmed form of its line, while `line_number` is the 1-based
position of the raw line in the untrimmed stream, and the containment
test that admitted the match was evaluated on the raw, untrimmed line. -/
theorem C10_trimmed (t city : List Char) (m : SearchMatch)
    (h : m ∈ search_city (some t) city) :
    ∃ k, ∃ hk : k < (splitLines t).length,
      m.line_number = k + 1 ∧ m.text = pyStrip (splitLines t)[k] ∧
        ciContains city (splitLines t)[k] = true := by
  have hs : search_city (some t) city = searchGo city 1 (splitLines t) ∨
      search_city (some t) city = [] := by
    cases t with
    | nil => right; rfl
    | cons a b => left; rfl
  rcases hs with hs | hs
  · rw [hs] at h
    rcases (searchGo_mem city (splitLines t) 1 m).1 h with ⟨k, hk, hck, hm⟩
    subst hm
    exact ⟨k, hk, by show 1 + k = k + 1; omega, rfl, hck⟩
  · rw [hs] at h
    exact absurd h (by simp)

/-- Witness for C10: a line with surrounding whitespace is matched on its
raw form (the needle has a leading space) yet stored trimmed. -/
theorem C10_trimmed_witness :
    ∃ k, ∃ hk : k < (splitLines ("  гр.софия  ").data).length,
      (⟨1, ("гр.софия").data⟩ : SearchMatch).line_number = k + 1 ∧
        (⟨1, ("гр.софия").data⟩ : SearchMatch).text
          = pyStrip (splitLines ("  гр.софия  ").data)[k] ∧
        ciContains (" ГР").data (splitLines ("  гр.софия  ").data)[k] = true :=
  C10_trimmed ("  гр.софия  ").data (" ГР").data ⟨1, ("гр.софия").data⟩ (by decide)
